import Mathlib

/-!  Verification of the MSF526 Homework-2 Monte Carlo module
(`BSMonteCarlo.py` and `MCStockPrices.py`): a shallow embedding of
`InterpolateRateCurve`, `BSMonteCarlo` and `MCStockPrices` over the reals,
together with theorems settling the specified behaviour. -/

/-- Python exceptions observable from the two modules: `ValueError` with its
message, `TypeError` (arithmetic on `None`), `IndexError` (indexing into an
empty array). -/
inductive PyError where
  | valueError : String → PyError
  | typeError : PyError
  | indexError : PyError
deriving DecidableEq

/-- A scalar float argument that may be NaN; non-NaN floats are modelled as
real numbers. -/
inductive NReal where
  | nan : NReal
  | val : ℝ → NReal

/-- Model of `np.isnan` on a scalar argument. -/
def NReal.isnan : NReal → Bool
  | .nan => true
  | .val _ => false

/-- The real value carried by a non-NaN argument (0 for NaN; the NaN case is
unreachable after the `np.isnan` checks). -/
def NReal.toReal : NReal → ℝ
  | .nan => 0
  | .val x => x

/-- A NumPy result that is either a 1-D or a 2-D array, as returned by the
branches of `MCStockPrices`. -/
inductive NpArray where
  | vec : List ℝ → NpArray
  | mat : List (List ℝ) → NpArray

/-- `RATE_CURVE_TENORS`: the standard US Treasury tenors hard-coded at the
top of `BSMonteCarlo.py`. -/
noncomputable def RATE_CURVE_TENORS : List ℝ :=
  [1/12, 2/12, 3/12, 6/12, 1, 2, 3, 5, 7, 10, 20, 30]

/-- Helper for `np.interp`: walk the remaining `(x, y)` points carrying the
previous point `(x0, y0)`; within a segment interpolate linearly, past the
last point clamp to the last value. -/
noncomputable def interpGo (x : ℝ) : ℝ → ℝ → List (ℝ × ℝ) → ℝ
  | _, y0, [] => y0
  | x0, y0, (x1, y1) :: ps =>
    if x ≤ x1 then y0 + (y1 - y0) * (x - x0) / (x1 - x0) else interpGo x x1 y1 ps

/-- Model of `np.interp(x, xp, fp)` for a scalar `x`: piecewise-linear
interpolation with flat extrapolation on both sides (NumPy's semantics for
increasing `xp`). -/
noncomputable def npInterp (x : ℝ) (xp fp : List ℝ) : ℝ :=
  match xp.zip fp with
  | [] => 0
  | (x0, y0) :: ps => if x ≤ x0 then y0 else interpGo x x0 y0 ps

/-- `InterpolateRateCurve(curve, T, tenors=None)` for a scalar `T`: raises
`ValueError` when `curve` is `None`, substitutes the default tenors when
`tenors` is `None`, returns `None` (modelled `Option.none`) when the lengths
mismatch, and otherwise returns `np.interp(T, tenors, curve)`. -/
noncomputable def InterpolateRateCurve (curve : Option (List ℝ)) (T : ℝ)
    (tenors : Option (List ℝ)) : Except PyError (Option ℝ) :=
  match curve with
  | none => .error (.valueError "Yield curve can not be None")
  | some c =>
    let ten := tenors.getD RATE_CURVE_TENORS
    if ten.length ≠ c.length then .ok none
    else .ok (some (npInterp T ten c))

/-- `InterpolateRateCurve(curve, T, tenors=None)` when `T` is an array:
`np.interp` maps elementwise over `T`; the `None`-curve and length-mismatch
behaviour is unchanged. -/
noncomputable def InterpolateRateCurveVec (curve : Option (List ℝ)) (Ts : List ℝ)
    (tenors : Option (List ℝ)) : Except PyError (Option (List ℝ)) :=
  match curve with
  | none => .error (.valueError "Yield curve can not be None")
  | some c =>
    let ten := tenors.getD RATE_CURVE_TENORS
    if ten.length ≠ c.length then .ok none
    else .ok (some (Ts.map fun T => npInterp T ten c))

/-- `np.mean` of a 1-D array: sum divided by length. -/
noncomputable def npMean (l : List ℝ) : ℝ := l.sum / l.length

/-- `np.std` of a 1-D array: the population standard deviation
`sqrt(mean((x - mean(x))^2))` (divisor `n`). -/
noncomputable def npStd (l : List ℝ) : ℝ :=
  Real.sqrt (npMean (l.map fun x => (x - npMean l) ^ 2))

/-- `scipy.stats.sem` of a 1-D array: the sample standard deviation with
divisor `n - 1`, divided by `sqrt(n)`. -/
noncomputable def scipySem (l : List ℝ) : ℝ :=
  Real.sqrt ((l.map fun x => (x - npMean l) ^ 2).sum / ((l.length : ℝ) - 1)) /
    Real.sqrt (l.length)

/-- The vector `vals` computed at one checkpoint `c` of `BSMonteCarlo`:
`exp(-r*T) * maximum(0, S0*exp((r-0.5*sigma**2)*T + sigma*sqrt(T)*samples[:c]) - K)`. -/
noncomputable def bsVals (s0 k T sigma r : ℝ) (zs : List ℝ) (c : ℕ) : List ℝ :=
  (zs.take c).map fun z =>
    Real.exp (-r * T) *
      max 0 (s0 * Real.exp ((r - 0.5 * sigma ^ 2) * T + sigma * Real.sqrt T * z) - k)

/-- The result dictionary of `BSMonteCarlo`. -/
structure BSResult where
  TV : ℝ
  Means : List ℝ
  StdDevs : List ℝ
  StdErrs : List ℝ

/-- The part of `BSMonteCarlo` after validation and sample resolution: rate
lookup via `InterpolateRateCurve` (with the `None` result rejected), then the
checkpoint loop computing `vals` and appending `mean(vals)`, `std(vals)` and
`sem(vals)`, then assembly of the result dictionary with `TV` the last
running mean. -/
noncomputable def BSMCBody (s0 k T sigma : ℝ) (cps : List ℕ) (curve : List ℝ)
    (zs : List ℝ) : Except PyError BSResult :=
  match InterpolateRateCurve (some curve) T none with
  | .error e => .error e
  | .ok none => .error (.valueError "Unable to obtain r")
  | .ok (some r) =>
    let running_means := cps.map fun c => npMean (bsVals s0 k T sigma r zs c)
    let running_stds := cps.map fun c => npStd (bsVals s0 k T sigma r zs c)
    let running_st_errs := cps.map fun c => scipySem (bsVals s0 k T sigma r zs c)
    match running_means.getLast? with
    | none => .error .indexError
    | some tv => .ok ⟨tv, running_means, running_stds, running_st_errs⟩

/-- `BSMonteCarlo(S0, K, T, sigma, checkpoints, rateCurve, samples=None)`.
The NaN and `None` checks and the sign checks follow the source order; `M` is
`checkpoints[-1]` (an `IndexError` on an empty list); absent samples are
generated by the injected `randn` generator; provided samples shorter than
`M` raise the `Not enough samples` `ValueError`. -/
noncomputable def BSMonteCarlo (S0 K T sigma : NReal) (checkpoints : Option (List ℕ))
    (rateCurve : Option (List ℝ)) (samples : Option (List ℝ)) (randn : ℕ → List ℝ) :
    Except PyError BSResult :=
  if K.isnan then .error (.valueError "Strike price can not be NaN")
  else if S0.isnan then .error (.valueError "Underlying price can not be NaN")
  else if T.isnan then .error (.valueError "Time to expiration can not be NaN")
  else if sigma.isnan then .error (.valueError "Volatility can not be NaN")
  else match rateCurve with
  | none => .error (.valueError "Yield curve can not be None")
  | some curve =>
    match checkpoints with
    | none => .error (.valueError "checkpoints can not be None")
    | some cps =>
      if S0.toReal ≤ 0 then .error (.valueError "Underlying price can not be zero or negative")
      else if K.toReal ≤ 0 then .error (.valueError "Strike price can not be zero or negative")
      else if T.toReal ≤ 0 then .error (.valueError "Expiration time can not be zero or negative")
      else if sigma.toReal ≤ 0 then .error (.valueError "Volatility can not be zero or negative")
      else match cps.getLast? with
      | none => .error .indexError
      | some M =>
        match samples with
        | none => BSMCBody S0.toReal K.toReal T.toReal sigma.toReal cps curve (randn M)
        | some zs =>
          if zs.length < M then
            .error (.valueError ("Not enough samples: " ++ toString zs.length))
          else BSMCBody S0.toReal K.toReal T.toReal sigma.toReal cps curve zs

/-- `np.transpose` of a rectangular 2-D array given as a list of rows. -/
def transposeM (m : List (List ℝ)) : List (List ℝ) :=
  (List.range (m.headD []).length).map fun j => m.map fun row => row.getD j 0

/-- `np.cumsum(m, axis=0)`: running elementwise sums down the rows. -/
def cumsum0Go (acc : List ℝ) : List (List ℝ) → List (List ℝ)
  | [] => []
  | r :: rs => (List.zipWith (· + ·) acc r) :: cumsum0Go (List.zipWith (· + ·) acc r) rs

/-- `np.cumsum(m, axis=0)`, entry point: the first row is kept as is. -/
def cumsum0 : List (List ℝ) → List (List ℝ)
  | [] => []
  | r :: rs => r :: cumsum0Go r rs

/-- `np.prod(m, axis=0)`: the full elementwise product of all rows (a 1-D
array; this is a reduction, not a cumulative product). -/
def prod0 : List (List ℝ) → List ℝ
  | [] => []
  | r :: rs => rs.foldl (List.zipWith (· * ·)) r

/-- `MCStockPrices(S0, sigma, rateCurve, t, samples, integrator)`. `r` is the
per-fixing-time interpolated rate vector (or `None` on a curve/tenor length
mismatch), `dt = t[0]`, and each branch transposes `samples`, broadcasts the
per-time vectors over the transposed rows, applies its reduction, and
transposes back; arithmetic on an unavailable (`None`) rate is a
`TypeError`, an unknown integrator a `ValueError`. -/
noncomputable def MCStockPrices (S0 sigma : ℝ) (rateCurve : Option (List ℝ))
    (t : List ℝ) (samples : List (List ℝ)) (integrator : String) :
    Except PyError NpArray :=
  match InterpolateRateCurveVec rateCurve t none with
  | .error e => .error e
  | .ok ropt =>
    match t with
    | [] => .error .indexError
    | t0 :: _ =>
      if integrator = "standard" then
        match ropt with
        | none => .error .typeError
        | some r =>
          .ok (.mat (transposeM ((transposeM samples).map fun row =>
            List.zipWith
              (fun rt z => S0 * Real.exp ((rt.1 - 0.5 * sigma ^ 2) * rt.2 +
                sigma * Real.sqrt rt.2 * z))
              (r.zip t) row)))
      else if integrator = "euler" then
        match ropt with
        | none => .error .typeError
        | some r =>
          .ok (.mat (transposeM ((cumsum0 ((transposeM samples).map fun row =>
            List.zipWith
              (fun rk z => (rk - 0.5 * sigma ^ 2) * t0 + sigma * Real.sqrt t0 * z)
              r row)).map fun row => row.map fun y => S0 * Real.exp y)))
      else if integrator = "milstein" then
        match ropt with
        | none => .error .typeError
        | some r =>
          .ok (.vec ((prod0 ((transposeM samples).map fun row =>
            List.zipWith
              (fun rk z => 1 + rk * t0 + sigma * Real.sqrt t0 * z +
                0.5 * sigma * sigma * (z ^ 2 * t0 - t0))
              r row)).map fun x => S0 * x))
      else .error (.valueError ("Unknown integrator method: " ++ integrator))

/-! ### Lemmas about the piecewise-linear interpolation -/

lemma interpGo_node (ps : List (ℝ × ℝ)) (x0 y0 : ℝ)
    (hs : List.Pairwise (· < ·) (x0 :: ps.map Prod.fst)) (j : ℕ) (x y : ℝ)
    (hj : ps[j]? = some (x, y)) : interpGo x x0 y0 ps = y := by
  induction ps generalizing x0 y0 j with
  | nil => simp at hj
  | cons p ps ih =>
    obtain ⟨x1, y1⟩ := p
    rw [List.map_cons] at hs
    rcases List.pairwise_cons.mp hs with ⟨h0, hs1⟩
    have h01 : x0 < x1 := h0 _ (by simp)
    cases j with
    | zero =>
      rw [List.getElem?_cons_zero] at hj
      obtain ⟨rfl, rfl⟩ : x1 = x ∧ y1 = y := by simpa using hj
      simp only [interpGo]
      rw [if_pos le_rfl, mul_div_cancel_right₀ _ (sub_ne_zero.mpr (ne_of_gt h01))]
      ring
    | succ j =>
      rw [List.getElem?_cons_succ] at hj
      have hxmem : x ∈ ps.map Prod.fst := by
        have hm : (ps.map Prod.fst)[j]? = some x := by
          rw [List.getElem?_map, hj]
          rfl
        exact List.getElem?_mem hm
      have h1x : x1 < x := (List.pairwise_cons.mp hs1).1 x hxmem
      simp only [interpGo]
      rw [if_neg (not_le.mpr h1x)]
      exact ih x1 y1 hs1 j hj

lemma interpGo_lastD (ps : List (ℝ × ℝ)) (x0 y0 x : ℝ)
    (hbig : ∀ p ∈ ps, p.1 < x) : interpGo x x0 y0 ps = (ps.map Prod.snd).getLastD y0 := by
  induction ps generalizing x0 y0 with
  | nil => simp [interpGo]
  | cons p ps ih =>
    obtain ⟨x1, y1⟩ := p
    simp only [interpGo, List.map_cons, List.getLastD_cons]
    rw [if_neg (not_le.mpr (hbig (x1, y1) (by simp)))]
    exact ih x1 y1 fun q hq => hbig q (by simp [hq])

lemma interpGo_zero (x x0 : ℝ) (ps : List (ℝ × ℝ)) (hp : ∀ p ∈ ps, p.2 = 0) :
    interpGo x x0 0 ps = 0 := by
  induction ps generalizing x0 with
  | nil => simp [interpGo]
  | cons p ps ih =>
    obtain ⟨x1, y1⟩ := p
    have hy1 : y1 = 0 := hp (x1, y1) (by simp)
    simp only [interpGo, hy1]
    split
    · ring
    · exact ih x1 fun q hq => hp q (by simp [hq])

lemma mem_le_of_getLast? {α : Type} [LinearOrder α] {l : List α}
    (hs : List.Pairwise (· < ·) l) {a : α} (ha : a ∈ l) {M : α}
    (hM : l.getLast? = some M) : a ≤ M := by
  induction l with
  | nil => simp at ha
  | cons b l ih =>
    rcases List.pairwise_cons.mp hs with ⟨hb, hl⟩
    cases l with
    | nil =>
      obtain rfl : a = b := by simpa using ha
      obtain rfl : a = M := by simpa using hM
      exact le_rfl
    | cons c l₂ =>
      rw [List.getLast?_cons_cons] at hM
      rcases List.mem_cons.mp ha with rfl | ha₂
      · have hmem : M ∈ c :: l₂ := List.mem_of_mem_getLast? hM
        exact le_of_lt (hb _ hmem)
      · exact ih hl ha₂ hM

lemma npInterp_node (xp fp : List ℝ) (hlen : xp.length = fp.length)
    (hs : List.Pairwise (· < ·) xp) (i : ℕ) (x y : ℝ)
    (hx : xp[i]? = some x) (hy : fp[i]? = some y) : npInterp x xp fp = y := by
  cases xp with
  | nil => simp at hx
  | cons t0 ts =>
    cases fp with
    | nil => simp at hy
    | cons c0 cs =>
      simp only [npInterp, List.zip_cons_cons]
      cases i with
      | zero =>
        obtain rfl : t0 = x := by simpa using hx
        obtain rfl : c0 = y := by simpa using hy
        rw [if_pos le_rfl]
      | succ i =>
        rw [List.getElem?_cons_succ] at hx hy
        have hmem : x ∈ ts := List.getElem?_mem hx
        have h0x : t0 < x := (List.pairwise_cons.mp hs).1 x hmem
        rw [if_neg (not_le.mpr h0x)]
        refine interpGo_node (ts.zip cs) t0 c0 ?_ i x y ?_
        · rw [List.map_fst_zip ts cs (by simp at hlen; omega)]
          exact hs
        · exact List.getElem?_zip_eq_some.mpr ⟨hx, hy⟩

lemma npInterp_left (t0 c0 x : ℝ) (ts cs : List ℝ) (hx : x ≤ t0) :
    npInterp x (t0 :: ts) (c0 :: cs) = c0 := by
  simp only [npInterp, List.zip_cons_cons]
  rw [if_pos hx]

lemma npInterp_right (xp fp : List ℝ) (hlen : xp.length = fp.length)
    (hs : List.Pairwise (· < ·) xp) (hne : xp ≠ []) (x : ℝ)
    (hx : xp.getLast hne < x) : npInterp x xp fp = fp.getLastD 0 := by
  cases xp with
  | nil => exact absurd rfl hne
  | cons t0 ts =>
    cases fp with
    | nil => simp at hlen
    | cons c0 cs =>
      have h0x : t0 < x := by
        refine lt_of_le_of_lt ?_ hx
        exact mem_le_of_getLast? hs (by simp) (List.getLast?_eq_getLast _ hne)
      simp only [npInterp, List.zip_cons_cons]
      rw [if_neg (not_le.mpr h0x)]
      rw [interpGo_lastD _ t0 c0 x ?_]
      · rw [List.map_snd_zip ts cs (by simp at hlen; omega), List.getLastD_cons]
      · intro p hp
        have hp1 : p.1 ∈ ts := by
          obtain ⟨a, b⟩ := p
          exact (List.of_mem_zip hp).1
        refine lt_of_le_of_lt ?_ hx
        refine mem_le_of_getLast? hs (by simp [hp1]) (List.getLast?_eq_getLast _ hne)

lemma npInterp_zero (x : ℝ) (xp fp : List ℝ) (hf : ∀ y ∈ fp, y = 0) :
    npInterp x xp fp = 0 := by
  cases h : xp.zip fp with
  | nil => simp [npInterp, h]
  | cons p ps =>
    obtain ⟨x0, y0⟩ := p
    have hmem : ∀ q ∈ xp.zip fp, q.2 = 0 := by
      intro q hq
      obtain ⟨a, b⟩ := q
      exact hf b (List.of_mem_zip hq).2
    have hy0 : y0 = 0 := hmem (x0, y0) (by simp [h])
    simp only [npInterp, h, hy0]
    split
    · rfl
    · exact interpGo_zero x x0 ps fun q hq => hmem q (by simp [h, hq])

lemma interpGo_segment (ps : List (ℝ × ℝ)) : ∀ x0 y0 x : ℝ,
    List.Pairwise (· < ·) (x0 :: ps.map Prod.fst) →
    ∀ (j : ℕ) (xa ya xb yb : ℝ), ps[j]? = some (xa, ya) → ps[j + 1]? = some (xb, yb) →
      xa < x → x ≤ xb →
      interpGo x x0 y0 ps = ya + (yb - ya) * (x - xa) / (xb - xa) := by
  induction ps with
  | nil =>
    intro x0 y0 x hs j xa ya xb yb hja hjb hax hxb
    simp at hja
  | cons p ps ih =>
    intro x0 y0 x hs j xa ya xb yb hja hjb hax hxb
    obtain ⟨x1, y1⟩ := p
    rw [List.map_cons] at hs
    rcases List.pairwise_cons.mp hs with ⟨h0, hs1⟩
    cases j with
    | zero =>
      obtain ⟨rfl, rfl⟩ : x1 = xa ∧ y1 = ya := by simpa using hja
      rw [List.getElem?_cons_succ] at hjb
      simp only [interpGo]
      rw [if_neg (not_le.mpr hax)]
      cases ps with
      | nil => simp at hjb
      | cons q ps2 =>
        obtain ⟨xb2, yb2⟩ := q
        obtain ⟨rfl, rfl⟩ : xb2 = xb ∧ yb2 = yb := by simpa using hjb
        simp only [interpGo]
        rw [if_pos hxb]
    | succ j =>
      rw [List.getElem?_cons_succ] at hja hjb
      have hmem : xa ∈ ps.map Prod.fst := by
        have hm : (ps.map Prod.fst)[j]? = some xa := by
          rw [List.getElem?_map, hja]
          rfl
        exact List.getElem?_mem hm
      have h1a : x1 < xa := (List.pairwise_cons.mp hs1).1 xa hmem
      simp only [interpGo]
      rw [if_neg (not_le.mpr (lt_trans h1a hax))]
      exact ih x1 y1 x hs1 j xa ya xb yb hja hjb hax hxb

lemma npInterp_segment (xp fp : List ℝ) (hlen : xp.length = fp.length)
    (hs : List.Pairwise (· < ·) xp) (i : ℕ) (x xa ya xb yb : ℝ)
    (hxa : xp[i]? = some xa) (hxb : xp[i + 1]? = some xb)
    (hya : fp[i]? = some ya) (hyb : fp[i + 1]? = some yb)
    (hax : xa < x) (hxb2 : x ≤ xb) :
    npInterp x xp fp = ya + (yb - ya) * (x - xa) / (xb - xa) := by
  cases xp with
  | nil => simp at hxa
  | cons t0 ts =>
    cases fp with
    | nil => simp at hya
    | cons c0 cs =>
      have hlen2 : ts.length = cs.length := by simpa using hlen
      simp only [npInterp, List.zip_cons_cons]
      cases i with
      | zero =>
        obtain rfl : t0 = xa := by simpa using hxa
        obtain rfl : c0 = ya := by simpa using hya
        rw [List.getElem?_cons_succ] at hxb hyb
        rw [if_neg (not_le.mpr hax)]
        cases ts with
        | nil => simp at hxb
        | cons t1 ts2 =>
          cases cs with
          | nil => simp at hyb
          | cons c1 cs2 =>
            obtain rfl : t1 = xb := by simpa using hxb
            obtain rfl : c1 = yb := by simpa using hyb
            simp only [List.zip_cons_cons, interpGo]
            rw [if_pos hxb2]
      | succ i =>
        rw [List.getElem?_cons_succ] at hxa hxb hya hyb
        have hmem : xa ∈ ts := List.getElem?_mem hxa
        have h0a : t0 < xa := (List.pairwise_cons.mp hs).1 xa hmem
        rw [if_neg (not_le.mpr (lt_trans h0a hax))]
        refine interpGo_segment (ts.zip cs) t0 c0 x ?_ i xa ya xb yb ?_ ?_ hax hxb2
        · rw [List.map_fst_zip ts cs (le_of_eq hlen2)]
          exact hs
        · exact List.getElem?_zip_eq_some.mpr ⟨hxa, hya⟩
        · exact List.getElem?_zip_eq_some.mpr ⟨hxb, hyb⟩

/-- C5: for every non-null curve whose length equals the tenors' length, with
strictly increasing tenors, `InterpolateRateCurve` returns the
piecewise-linear interpolation of the curve over the tenors: values at or
below the first tenor clamp to the first rate, values above the last tenor
clamp to the last rate, evaluating exactly at `tenor[i]` returns `rate[i]`
exactly, values between two consecutive tenors interpolate linearly as
`rate[i] + (rate[i+1] - rate[i]) * (T - tenor[i]) / (tenor[i+1] - tenor[i])`,
and for a sequence argument the result is elementwise with the output length
equal to the input length. -/
theorem InterpolateRateCurve_piecewise_linear (curve : List ℝ)
    (tenors : Option (List ℝ)) (ten : List ℝ)
    (hten : tenors.getD RATE_CURVE_TENORS = ten)
    (hlen : ten.length = curve.length)
    (hs : List.Pairwise (· < ·) ten) :
    (∀ i : ℕ, ∀ x y : ℝ, ten[i]? = some x → curve[i]? = some y →
      InterpolateRateCurve (some curve) x tenors = .ok (some y)) ∧
    (∀ x t0 c0 : ℝ, ∀ ts cs : List ℝ, ten = t0 :: ts → curve = c0 :: cs → x ≤ t0 →
      InterpolateRateCurve (some curve) x tenors = .ok (some c0)) ∧
    (∀ x : ℝ, ∀ hne : ten ≠ [], ten.getLast hne < x →
      InterpolateRateCurve (some curve) x tenors = .ok (some (curve.getLastD 0))) ∧
    (∀ Ts : List ℝ, ∃ rs : List ℝ,
      InterpolateRateCurveVec (some curve) Ts tenors = .ok (some rs) ∧
      rs.length = Ts.length) ∧
    (∀ (i : ℕ) (x xa ya xb yb : ℝ), ten[i]? = some xa → ten[i + 1]? = some xb →
      curve[i]? = some ya → curve[i + 1]? = some yb → xa < x → x ≤ xb →
      InterpolateRateCurve (some curve) x tenors =
        .ok (some (ya + (yb - ya) * (x - xa) / (xb - xa)))) := by
  have hbase : ∀ x : ℝ,
      InterpolateRateCurve (some curve) x tenors = .ok (some (npInterp x ten curve)) := by
    intro x
    simp only [InterpolateRateCurve, hten]
    rw [if_neg (not_ne_iff.mpr hlen)]
  refine ⟨?_, ?_, ?_, ?_, ?_⟩
  · intro i x y hx hy
    rw [hbase, npInterp_node ten curve hlen hs i x y hx hy]
  · intro x t0 c0 ts cs hts hcs hx
    subst hts
    subst hcs
    rw [hbase, npInterp_left t0 c0 x ts cs hx]
  · intro x hne hlt
    rw [hbase, npInterp_right ten curve hlen hs hne x hlt]
  · intro Ts
    refine ⟨Ts.map fun T => npInterp T ten curve, ?_, by simp⟩
    simp only [InterpolateRateCurveVec, hten]
    rw [if_neg (not_ne_iff.mpr hlen)]
  · intro i x xa ya xb yb hxa hxb hya hyb hax hxb2
    rw [hbase, npInterp_segment ten curve hlen hs i x xa ya xb yb hxa hxb hya hyb hax hxb2]

/-- Witness for C5: with tenors `[1, 2]` and curve `[5, 7]`, interpolating at
the second tenor returns the second rate exactly, and interpolating at the
interior point `3/2` returns the midpoint value `6`. -/
theorem InterpolateRateCurve_piecewise_linear_witness :
    InterpolateRateCurve (some [5, 7]) 2 (some [1, 2]) = .ok (some 7) ∧
    InterpolateRateCurve (some [5, 7]) (3 / 2) (some [1, 2]) = .ok (some 6) := by
  have h := InterpolateRateCurve_piecewise_linear [5, 7] (some [1, 2]) [1, 2] rfl rfl
    (by norm_num [List.pairwise_cons])
  refine ⟨h.1 1 2 7 rfl rfl, ?_⟩
  have hseg := h.2.2.2.2 0 (3 / 2) 1 5 2 7 rfl rfl rfl rfl (by norm_num) (by norm_num)
  rw [hseg]
  norm_num

/-! ### Evaluation of BSMonteCarlo on valid inputs -/

lemma BSMCBody_eval (s0 k T sig : ℝ) (cps : List ℕ) (curve zs : List ℝ) (M : ℕ)
    (hlen : curve.length = 12) (hM : cps.getLast? = some M) :
    BSMCBody s0 k T sig cps curve zs =
      .ok ⟨npMean (bsVals s0 k T sig (npInterp T RATE_CURVE_TENORS curve) zs M),
        cps.map fun c => npMean (bsVals s0 k T sig (npInterp T RATE_CURVE_TENORS curve) zs c),
        cps.map fun c => npStd (bsVals s0 k T sig (npInterp T RATE_CURVE_TENORS curve) zs c),
        cps.map fun c => scipySem (bsVals s0 k T sig (npInterp T RATE_CURVE_TENORS curve) zs c)⟩ := by
  have hlen12 : RATE_CURVE_TENORS.length = curve.length := by
    rw [hlen]
    rfl
  simp only [BSMCBody, InterpolateRateCurve, Option.getD]
  rw [if_neg (not_ne_iff.mpr hlen12)]
  simp only []
  rw [List.getLast?_map, hM]
  rfl

lemma BSMonteCarlo_eval (s0 k T sig : ℝ) (cps : List ℕ) (curve zs : List ℝ)
    (randn : ℕ → List ℝ) (M : ℕ)
    (h0 : 0 < s0) (h1 : 0 < k) (h2 : 0 < T) (h3 : 0 < sig)
    (hM : cps.getLast? = some M) (hzs : M ≤ zs.length) :
    BSMonteCarlo (.val s0) (.val k) (.val T) (.val sig) (some cps) (some curve)
      (some zs) randn = BSMCBody s0 k T sig cps curve zs := by
  simp only [BSMonteCarlo, NReal.isnan, NReal.toReal, Bool.false_eq_true, if_false]
  rw [if_neg (not_le.mpr h0), if_neg (not_le.mpr h1), if_neg (not_le.mpr h2),
    if_neg (not_le.mpr h3), hM]
  simp only [if_neg (not_lt.mpr hzs)]

/-! ### Statistics lemmas -/

lemma sq_dev_sum_nonneg (l : List ℝ) : 0 ≤ (l.map fun x => (x - npMean l) ^ 2).sum := by
  refine List.sum_nonneg ?_
  intro x hx
  obtain ⟨y, hy, rfl⟩ := List.mem_map.mp hx
  positivity

lemma npMean_nonneg (l : List ℝ) (h : ∀ x ∈ l, 0 ≤ x) : 0 ≤ npMean l :=
  div_nonneg (List.sum_nonneg h) (Nat.cast_nonneg _)

lemma bsVals_nonneg (s0 k T sig r : ℝ) (zs : List ℝ) (c : ℕ) :
    ∀ x ∈ bsVals s0 k T sig r zs c, 0 ≤ x := by
  intro x hx
  simp only [bsVals, List.mem_map] at hx
  obtain ⟨z, hz, rfl⟩ := hx
  exact mul_nonneg (Real.exp_pos _).le (le_max_left 0 _)

lemma npStd_eq (l : List ℝ) :
    npStd l = Real.sqrt ((l.map fun x => (x - npMean l) ^ 2).sum) /
      Real.sqrt (l.length : ℝ) := by
  rw [npStd, npMean, List.length_map, Real.sqrt_div (sq_dev_sum_nonneg l)]

lemma scipySem_eq (l : List ℝ) :
    scipySem l = Real.sqrt ((l.map fun x => (x - npMean l) ^ 2).sum) /
      (Real.sqrt ((l.length : ℝ) - 1) * Real.sqrt (l.length : ℝ)) := by
  rw [scipySem, Real.sqrt_div (sq_dev_sum_nonneg l), div_div]

lemma scipySem_npStd_rel (l : List ℝ) (c : ℕ) (hc : l.length = c) (h2 : 2 ≤ c) :
    scipySem l = npStd l / Real.sqrt ((c : ℝ) - 1) ∧
    (npStd l ≠ 0 → scipySem l ≠ npStd l / Real.sqrt (c : ℝ)) := by
  subst hc
  have h2R : (2 : ℝ) ≤ (l.length : ℝ) := by exact_mod_cast h2
  have hn1 : (0 : ℝ) < (l.length : ℝ) - 1 := by linarith
  have hn : (0 : ℝ) < (l.length : ℝ) := by linarith
  constructor
  · rw [npStd_eq, scipySem_eq, div_div, mul_comm]
  · intro hd
    have hdpos : 0 < npStd l := lt_of_le_of_ne (Real.sqrt_nonneg _) (Ne.symm hd)
    have hlt : Real.sqrt ((l.length : ℝ) - 1) < Real.sqrt (l.length : ℝ) :=
      Real.sqrt_lt_sqrt (le_of_lt hn1) (by linarith)
    have hgt : npStd l / Real.sqrt (l.length : ℝ) <
        npStd l / Real.sqrt ((l.length : ℝ) - 1) :=
      div_lt_div_of_pos_left hdpos (Real.sqrt_pos.mpr hn1) hlt
    have hrel : scipySem l = npStd l / Real.sqrt ((l.length : ℝ) - 1) := by
      rw [scipySem_eq, npStd_eq, div_div, mul_comm]
    rw [hrel]
    exact ne_of_gt hgt

/-- C1: for every valid input (positive non-NaN scalars, a rate curve
matching the 12 default tenors, strictly increasing checkpoints, and at
least `checkpoints[-1]` samples), `BSMonteCarlo` records at each checkpoint
`c`, in ascending order, the mean, population standard deviation and
standard error of the discounted payoffs
`exp(-r*T) * max(0, S0*exp((r - 0.5*sigma^2)*T + sigma*sqrt(T)*z_j) - K)`
computed over exactly the first `c` samples of the single shared sample
stream, with `r` the rate interpolated at `T`. -/
theorem BSMonteCarlo_checkpoint_prefix_stats (s0 k T sig : ℝ) (cps : List ℕ)
    (curve zs : List ℝ) (randn : ℕ → List ℝ) (M : ℕ)
    (h0 : 0 < s0) (h1 : 0 < k) (h2 : 0 < T) (h3 : 0 < sig)
    (hcurve : curve.length = 12) (hsorted : List.Pairwise (· < ·) cps)
    (hM : cps.getLast? = some M) (hzs : M ≤ zs.length) :
    BSMonteCarlo (.val s0) (.val k) (.val T) (.val sig) (some cps) (some curve)
        (some zs) randn =
      .ok ⟨npMean (bsVals s0 k T sig (npInterp T RATE_CURVE_TENORS curve) zs M),
        cps.map fun c => npMean (bsVals s0 k T sig (npInterp T RATE_CURVE_TENORS curve) zs c),
        cps.map fun c => npStd (bsVals s0 k T sig (npInterp T RATE_CURVE_TENORS curve) zs c),
        cps.map fun c => scipySem (bsVals s0 k T sig (npInterp T RATE_CURVE_TENORS curve) zs c)⟩ ∧
    ∀ c ∈ cps, (zs.take c).length = c ∧
      bsVals s0 k T sig (npInterp T RATE_CURVE_TENORS curve) zs c =
        (zs.take c).map fun z =>
          Real.exp (-(npInterp T RATE_CURVE_TENORS curve) * T) *
            max 0 (s0 * Real.exp ((npInterp T RATE_CURVE_TENORS curve - 0.5 * sig ^ 2) * T +
              sig * Real.sqrt T * z) - k) := by
  constructor
  · rw [BSMonteCarlo_eval s0 k T sig cps curve zs randn M h0 h1 h2 h3 hM hzs,
      BSMCBody_eval s0 k T sig cps curve zs M hcurve hM]
  · intro c hc
    refine ⟨?_, rfl⟩
    have hcM : c ≤ M := mem_le_of_getLast? hsorted hc hM
    rw [List.length_take]
    omega

/-- Witness for C1 at a concrete valid input. -/
theorem BSMonteCarlo_checkpoint_prefix_stats_witness :
    ∃ res, BSMonteCarlo (.val 100) (.val 110) (.val 1) (.val 1) (some [1, 2])
      (some (List.replicate 12 0)) (some [0, 0]) (fun n => List.replicate n 0) =
      .ok res :=
  ⟨_, (BSMonteCarlo_checkpoint_prefix_stats 100 110 1 1 [1, 2] (List.replicate 12 0)
    [0, 0] (fun n => List.replicate n 0) 2 (by norm_num) (by norm_num) (by norm_num)
    (by norm_num) (by simp) (by decide) rfl (by norm_num)).1⟩

/-- C6: `BSMonteCarlo` fails with a `ValueError` (the `InvalidInput` failure)
whenever any of S0, K, T, sigma is NaN, or the rate curve or the checkpoints
argument is absent, or any of S0, K, T, sigma is a value at most 0, for
every combination of the remaining arguments; no partial result is
returned. -/
theorem BSMonteCarlo_invalid_input (S0 K T sigma : NReal)
    (checkpoints : Option (List ℕ)) (rateCurve : Option (List ℝ))
    (samples : Option (List ℝ)) (randn : ℕ → List ℝ)
    (h : S0.isnan = true ∨ K.isnan = true ∨ T.isnan = true ∨ sigma.isnan = true ∨
      rateCurve = none ∨ checkpoints = none ∨
      (∃ x, S0 = .val x ∧ x ≤ 0) ∨ (∃ x, K = .val x ∧ x ≤ 0) ∨
      (∃ x, T = .val x ∧ x ≤ 0) ∨ (∃ x, sigma = .val x ∧ x ≤ 0)) :
    ∃ msg, BSMonteCarlo S0 K T sigma checkpoints rateCurve samples randn =
      .error (.valueError msg) := by
  simp only [BSMonteCarlo]
  by_cases hK : K.isnan = true
  · rw [if_pos hK]
    exact ⟨_, rfl⟩
  rw [if_neg hK]
  by_cases hS : S0.isnan = true
  · rw [if_pos hS]
    exact ⟨_, rfl⟩
  rw [if_neg hS]
  by_cases hT : T.isnan = true
  · rw [if_pos hT]
    exact ⟨_, rfl⟩
  rw [if_neg hT]
  by_cases hSg : sigma.isnan = true
  · rw [if_pos hSg]
    exact ⟨_, rfl⟩
  rw [if_neg hSg]
  cases rateCurve with
  | none => exact ⟨_, rfl⟩
  | some curve =>
    cases checkpoints with
    | none => exact ⟨_, rfl⟩
    | some cps =>
      simp only []
      by_cases h0 : S0.toReal ≤ 0
      · rw [if_pos h0]
        exact ⟨_, rfl⟩
      rw [if_neg h0]
      by_cases h1 : K.toReal ≤ 0
      · rw [if_pos h1]
        exact ⟨_, rfl⟩
      rw [if_neg h1]
      by_cases h2 : T.toReal ≤ 0
      · rw [if_pos h2]
        exact ⟨_, rfl⟩
      rw [if_neg h2]
      by_cases h3 : sigma.toReal ≤ 0
      · rw [if_pos h3]
        exact ⟨_, rfl⟩
      exfalso
      rcases h with h | h | h | h | h | h | ⟨x, hx, hle⟩ | ⟨x, hx, hle⟩ |
        ⟨x, hx, hle⟩ | ⟨x, hx, hle⟩
      · exact hS h
      · exact hK h
      · exact hT h
      · exact hSg h
      · exact Option.noConfusion h
      · exact Option.noConfusion h
      · subst hx
        exact h0 hle
      · subst hx
        exact h1 hle
      · subst hx
        exact h2 hle
      · subst hx
        exact h3 hle

/-- Witness for C6: the boundary rejection S0 = 0. -/
theorem BSMonteCarlo_invalid_input_witness :
    ∃ msg, BSMonteCarlo (.val 0) (.val 110) (.val 1) (.val 1) (some [1])
      (some (List.replicate 12 0)) none (fun n => List.replicate n 0) =
      .error (.valueError msg) :=
  BSMonteCarlo_invalid_input _ _ _ _ _ _ _ _
    (Or.inr (Or.inr (Or.inr (Or.inr (Or.inr (Or.inr (Or.inl ⟨0, rfl, le_rfl⟩)))))))

/-- C7: with `M = checkpoints[-1]`, a provided sample buffer shorter than `M`
makes `BSMonteCarlo` fail with the `Not enough samples` `ValueError`
reporting the provided count; when samples are absent, the call behaves
exactly as if the `M` generator draws had been provided, and with a matching
curve it succeeds. -/
theorem BSMonteCarlo_sample_resolution (s0 k T sig : ℝ) (cps : List ℕ)
    (curve : List ℝ) (randn : ℕ → List ℝ) (M : ℕ)
    (h0 : 0 < s0) (h1 : 0 < k) (h2 : 0 < T) (h3 : 0 < sig)
    (hM : cps.getLast? = some M) :
    (∀ zs : List ℝ, zs.length < M →
      BSMonteCarlo (.val s0) (.val k) (.val T) (.val sig) (some cps) (some curve)
        (some zs) randn =
        .error (.valueError ("Not enough samples: " ++ toString zs.length))) ∧
    ((randn M).length = M →
      BSMonteCarlo (.val s0) (.val k) (.val T) (.val sig) (some cps) (some curve)
          none randn =
        BSMonteCarlo (.val s0) (.val k) (.val T) (.val sig) (some cps) (some curve)
          (some (randn M)) randn ∧
      (curve.length = 12 → ∃ res,
        BSMonteCarlo (.val s0) (.val k) (.val T) (.val sig) (some cps) (some curve)
          none randn = .ok res)) := by
  have hnone : BSMonteCarlo (.val s0) (.val k) (.val T) (.val sig) (some cps)
      (some curve) none randn = BSMCBody s0 k T sig cps curve (randn M) := by
    simp only [BSMonteCarlo, NReal.isnan, NReal.toReal, Bool.false_eq_true, if_false]
    rw [if_neg (not_le.mpr h0), if_neg (not_le.mpr h1), if_neg (not_le.mpr h2),
      if_neg (not_le.mpr h3), hM]
  constructor
  · intro zs hlt
    simp only [BSMonteCarlo, NReal.isnan, NReal.toReal, Bool.false_eq_true, if_false]
    rw [if_neg (not_le.mpr h0), if_neg (not_le.mpr h1), if_neg (not_le.mpr h2),
      if_neg (not_le.mpr h3), hM]
    simp only [if_pos hlt]
  · intro hg
    constructor
    · rw [hnone, BSMonteCarlo_eval s0 k T sig cps curve (randn M) randn M h0 h1 h2 h3
        hM (le_of_eq hg.symm)]
    · intro hcurve
      exact ⟨_, by rw [hnone, BSMCBody_eval s0 k T sig cps curve (randn M) M hcurve hM]⟩

/-- Witness for C7: one sample provided where two are needed. -/
theorem BSMonteCarlo_sample_resolution_witness :
    BSMonteCarlo (.val 100) (.val 110) (.val 1) (.val 1) (some [2])
      (some (List.replicate 12 0)) (some [0]) (fun n => List.replicate n 0) =
      .error (.valueError ("Not enough samples: " ++ toString (1 : ℕ))) :=
  (BSMonteCarlo_sample_resolution 100 110 1 1 [2] (List.replicate 12 0)
    (fun n => List.replicate n 0) 2 (by norm_num) (by norm_num) (by norm_num)
    (by norm_num) rfl).1 [0] (by norm_num)

/-- C8: for positive non-NaN parameters, a matching rate curve and
sufficient samples, `BSMonteCarlo` returns a convergence record whose
`Means`, `StdDevs` and `StdErrs` lists each have the checkpoints' length,
whose `TV` is the mean recorded at the final checkpoint, and whose `TV` is
non-negative. -/
theorem BSMonteCarlo_convergence_record (s0 k T sig : ℝ) (cps : List ℕ)
    (curve zs : List ℝ) (randn : ℕ → List ℝ) (M : ℕ)
    (h0 : 0 < s0) (h1 : 0 < k) (h2 : 0 < T) (h3 : 0 < sig)
    (hcurve : curve.length = 12) (hM : cps.getLast? = some M) (hzs : M ≤ zs.length) :
    ∃ res, BSMonteCarlo (.val s0) (.val k) (.val T) (.val sig) (some cps) (some curve)
        (some zs) randn = .ok res ∧
      res.Means.length = cps.length ∧ res.StdDevs.length = cps.length ∧
      res.StdErrs.length = cps.length ∧ res.Means.getLast? = some res.TV ∧
      0 ≤ res.TV := by
  refine ⟨_, by rw [BSMonteCarlo_eval s0 k T sig cps curve zs randn M h0 h1 h2 h3 hM hzs,
    BSMCBody_eval s0 k T sig cps curve zs M hcurve hM], ?_, ?_, ?_, ?_, ?_⟩
  · simp
  · simp
  · simp
  · simp only [List.getLast?_map, hM]
    rfl
  · exact npMean_nonneg _ (bsVals_nonneg s0 k T sig _ zs M)

/-- Witness for C8 at a concrete valid input. -/
theorem BSMonteCarlo_convergence_record_witness :
    ∃ res, BSMonteCarlo (.val 100) (.val 110) (.val 1) (.val 1) (some [1, 2])
        (some (List.replicate 12 0)) (some [0, 0]) (fun n => List.replicate n 0) =
        .ok res ∧
      res.Means.length = 2 ∧ res.StdDevs.length = 2 ∧ res.StdErrs.length = 2 ∧
      res.Means.getLast? = some res.TV ∧ 0 ≤ res.TV :=
  BSMonteCarlo_convergence_record 100 110 1 1 [1, 2] (List.replicate 12 0) [0, 0]
    (fun n => List.replicate n 0) 2 (by norm_num) (by norm_num) (by norm_num)
    (by norm_num) (by simp) rfl (by norm_num)

/-- C10: on every successful call, at each checkpoint `c ≥ 2` the recorded
standard deviation is the population standard deviation (divisor `c`) of the
`c` discounted payoffs while the recorded standard error is the sample
standard deviation (divisor `c - 1`) divided by `sqrt(c)`, so the two
outputs satisfy `StdErrs[i] = StdDevs[i] / sqrt(c - 1)` and, whenever the
standard deviation is nonzero, `StdErrs[i] ≠ StdDevs[i] / sqrt(c)`. -/
theorem BSMonteCarlo_stddev_stderr_relation (s0 k T sig : ℝ) (cps : List ℕ)
    (curve zs : List ℝ) (randn : ℕ → List ℝ) (M : ℕ)
    (h0 : 0 < s0) (h1 : 0 < k) (h2 : 0 < T) (h3 : 0 < sig)
    (hcurve : curve.length = 12) (hM : cps.getLast? = some M) (hzs : M ≤ zs.length) :
    ∃ res, BSMonteCarlo (.val s0) (.val k) (.val T) (.val sig) (some cps) (some curve)
        (some zs) randn = .ok res ∧
      ∀ i c : ℕ, cps[i]? = some c → 2 ≤ c → c ≤ zs.length →
        ∃ d e, res.StdDevs[i]? = some d ∧ res.StdErrs[i]? = some e ∧
          e = d / Real.sqrt ((c : ℝ) - 1) ∧
          (d ≠ 0 → e ≠ d / Real.sqrt (c : ℝ)) := by
  refine ⟨_, by rw [BSMonteCarlo_eval s0 k T sig cps curve zs randn M h0 h1 h2 h3 hM hzs,
    BSMCBody_eval s0 k T sig cps curve zs M hcurve hM], ?_⟩
  intro i c hc h2c hcz
  have hlen : (bsVals s0 k T sig (npInterp T RATE_CURVE_TENORS curve) zs c).length = c := by
    simp only [bsVals, List.length_map, List.length_take]
    omega
  have hrel := scipySem_npStd_rel
    (bsVals s0 k T sig (npInterp T RATE_CURVE_TENORS curve) zs c) c hlen h2c
  refine ⟨npStd (bsVals s0 k T sig (npInterp T RATE_CURVE_TENORS curve) zs c),
    scipySem (bsVals s0 k T sig (npInterp T RATE_CURVE_TENORS curve) zs c),
    ?_, ?_, hrel.1, hrel.2⟩
  · simp only [List.getElem?_map, hc]
    rfl
  · simp only [List.getElem?_map, hc]
    rfl

/-- Witness for C10 at a concrete valid input with checkpoint 2. -/
theorem BSMonteCarlo_stddev_stderr_relation_witness :
    ∃ res, BSMonteCarlo (.val 100) (.val 110) (.val 1) (.val 1) (some [2])
        (some (List.replicate 12 0)) (some [0, 0]) (fun n => List.replicate n 0) =
        .ok res ∧
      ∀ i c : ℕ, ([2] : List ℕ)[i]? = some c → 2 ≤ c → c ≤ ([0, 0] : List ℝ).length →
        ∃ d e, res.StdDevs[i]? = some d ∧ res.StdErrs[i]? = some e ∧
          e = d / Real.sqrt ((c : ℝ) - 1) ∧
          (d ≠ 0 → e ≠ d / Real.sqrt (c : ℝ)) :=
  BSMonteCarlo_stddev_stderr_relation 100 110 1 1 [2] (List.replicate 12 0) [0, 0]
    (fun n => List.replicate n 0) 2 (by norm_num) (by norm_num) (by norm_num)
    (by norm_num) (by simp) rfl (by norm_num)

/-! ### Lemmas about the NumPy array operations -/

lemma npInterp_replicate_zero (x : ℝ) :
    npInterp x RATE_CURVE_TENORS (List.replicate 12 0) = 0 :=
  npInterp_zero x _ _ fun _ hy => List.eq_of_mem_replicate hy

lemma getD_zipWith {α β : Type} (f : α → β → ℝ) (v : List α) (w : List β) (i : ℕ)
    (a : α) (b : β) (ha : v[i]? = some a) (hb : w[i]? = some b) :
    (List.zipWith f v w).getD i 0 = f a b := by
  rw [List.getD_eq_getElem?_getD, List.getElem?_zipWith, ha, hb]
  rfl

lemma range_map_getD (l : List ℝ) (w : ℕ) (hw : l.length = w) (G : ℝ → ℝ) :
    (List.range w).map (fun j => G (l.getD j 0)) = l.map G := by
  subst hw
  apply List.ext_getElem?
  intro n
  by_cases hn : n < l.length
  · rw [List.getElem?_eq_getElem (by simpa using hn), List.getElem?_eq_getElem (by simpa using hn),
      List.getElem_map, List.getElem_map, List.getElem_range,
      List.getD_eq_getElem?_getD, List.getElem?_eq_getElem hn]
    rfl
  · rw [List.getElem?_eq_none (by simpa using hn), List.getElem?_eq_none (by simpa using hn)]

lemma headD_map_range (G : ℕ → List ℝ) (w : ℕ) (hw : 0 < w) :
    ((List.range w).map G).headD [] = G 0 := by
  cases w with
  | zero => omega
  | succ m =>
    rw [List.range_succ_eq_map]
    rfl

lemma transposeM_map_zipWith_transposeM {α : Type} (f : α → ℝ → ℝ) (v : List α)
    (samples : List (List ℝ)) (Mp : ℕ) (hMp : 0 < Mp)
    (hv : v.length = samples.length) (hrect : ∀ row ∈ samples, row.length = Mp) :
    transposeM ((transposeM samples).map fun row => List.zipWith f v row) =
      List.zipWith (fun a row => row.map (f a)) v samples := by
  cases samples with
  | nil =>
    rw [List.length_eq_zero.mp hv]
    rfl
  | cons row0 rest =>
    have hrow0 : row0.length = Mp := hrect row0 (by simp)
    have hB : (transposeM (row0 :: rest)).map (fun row => List.zipWith f v row) =
        (List.range Mp).map fun j =>
          List.zipWith f v ((row0 :: rest).map fun row => row.getD j 0) := by
      rw [transposeM, List.map_map]
      simp only [List.headD_cons, hrow0]
      rfl
    rw [hB, transposeM, headD_map_range _ _ hMp, List.length_zipWith, List.length_map, hv,
      min_self]
    apply List.ext_getElem?
    intro i
    by_cases hi : i < (row0 :: rest).length
    · have hiv : i < v.length := by omega
      have hlhs : i < ((List.range (row0 :: rest).length).map fun i =>
          ((List.range Mp).map fun j =>
            List.zipWith f v ((row0 :: rest).map fun row => row.getD j 0)).map
              fun row => row.getD i 0).length := by
        simpa using hi
      have hrhs : i < (List.zipWith (fun a row => row.map (f a)) v (row0 :: rest)).length := by
        rw [List.length_zipWith]
        omega
      rw [List.getElem?_eq_getElem hlhs, List.getElem?_eq_getElem hrhs,
        List.getElem_map, List.getElem_range, List.getElem_zipWith]
      have hsilen : (row0 :: rest)[i].length = Mp := hrect _ (List.getElem_mem hi)
      have hfun : ∀ j : ℕ,
          (List.zipWith f v ((row0 :: rest).map fun row => row.getD j 0)).getD i 0 =
            f (v[i]) ((row0 :: rest)[i].getD j 0) := by
        intro j
        refine getD_zipWith f v _ i (v[i]) ((row0 :: rest)[i].getD j 0)
          (List.getElem?_eq_getElem hiv) ?_
        rw [List.getElem?_map, List.getElem?_eq_getElem hi]
        rfl
      rw [List.map_map]
      refine congrArg some ?_
      calc (List.range Mp).map ((fun row => row.getD i 0) ∘ fun j =>
            List.zipWith f v ((row0 :: rest).map fun row => row.getD j 0))
          = (List.range Mp).map fun j => f (v[i]) ((row0 :: rest)[i].getD j 0) :=
            List.map_congr_left fun j hj => hfun j
        _ = (row0 :: rest)[i].map (f (v[i])) :=
            range_map_getD _ Mp hsilen (f (v[i]))
    · rw [List.getElem?_eq_none, List.getElem?_eq_none]
      · rw [List.length_zipWith]
        omega
      · rw [List.length_map, List.length_range]
        omega

lemma zipWith_map_zip_self {α : Type} (h : ℝ → α) (F : α × ℝ → List ℝ → List ℝ)
    (t : List ℝ) (samples : List (List ℝ)) :
    List.zipWith F ((t.map h).zip t) samples =
      List.zipWith (fun ti row => F (h ti, ti) row) t samples := by
  induction t generalizing samples with
  | nil => rfl
  | cons a t ih =>
    cases samples with
    | nil => rfl
    | cons s ss =>
      simp only [List.map_cons, List.zip_cons_cons, List.zipWith_cons_cons, ih]

/-- C4: with the "standard" integrator, every output entry for fixing time
`t_i` and path `j` is computed independently from `S0` (not chained through
previous steps) as `S0 * exp((r_i - 0.5*sigma^2)*t_i + sigma*sqrt(t_i)*z_{i,j})`
with `r_i` the rate interpolated at `t_i`, and the output has the same shape
as the input sample matrix. -/
theorem MCStockPrices_standard_entrywise (S0 sig : ℝ) (curve : List ℝ)
    (t : List ℝ) (samples : List (List ℝ)) (Mp : ℕ)
    (hcurve : curve.length = 12) (hMp : 0 < Mp) (hne : t ≠ [])
    (hts : t.length = samples.length) (hrect : ∀ row ∈ samples, row.length = Mp) :
    MCStockPrices S0 sig (some curve) t samples "standard" =
      .ok (.mat (List.zipWith (fun ti row => row.map fun z =>
        S0 * Real.exp ((npInterp ti RATE_CURVE_TENORS curve - 0.5 * sig ^ 2) * ti +
          sig * Real.sqrt ti * z)) t samples)) := by
  obtain ⟨t0, trest, rfl⟩ : ∃ t0 trest, t = t0 :: trest := by
    cases t with
    | nil => exact absurd rfl hne
    | cons t0 trest => exact ⟨t0, trest, rfl⟩
  simp only [MCStockPrices, InterpolateRateCurveVec, Option.getD]
  rw [if_neg (not_ne_iff.mpr (by rw [hcurve]; rfl))]
  simp only [if_pos rfl]
  refine congrArg Except.ok (congrArg NpArray.mat ?_)
  have hzip : (((t0 :: trest).map fun T => npInterp T RATE_CURVE_TENORS curve).zip
      (t0 :: trest)).length = samples.length := by
    rw [List.length_zip, List.length_map, min_self, hts]
  rw [transposeM_map_zipWith_transposeM
    (fun rt z => S0 * Real.exp ((rt.1 - 0.5 * sig ^ 2) * rt.2 + sig * Real.sqrt rt.2 * z))
    _ samples Mp hMp hzip hrect]
  rw [zipWith_map_zip_self (fun T => npInterp T RATE_CURVE_TENORS curve)
    (fun a row => row.map fun z =>
      S0 * Real.exp ((a.1 - 0.5 * sig ^ 2) * a.2 + sig * Real.sqrt a.2 * z))
    (t0 :: trest) samples]

/-- Witness for C4: the zero-noise sanity check with a single fixing time
`t = 2`, a flat-zero curve and all samples 0; every entry is
`S0 * exp((r - 0.5*sigma^2)*t) = 100 * exp(-1)` exactly. -/
theorem MCStockPrices_standard_entrywise_witness :
    MCStockPrices 100 1 (some (List.replicate 12 0)) [2] [[0, 0]] "standard" =
      .ok (.mat [[100 * Real.exp (-1), 100 * Real.exp (-1)]]) := by
  have h := MCStockPrices_standard_entrywise 100 1 (List.replicate 12 0) [2] [[0, 0]] 2
    (by simp) (by norm_num) (by simp) (by simp)
    (by
      intro row hrow
      rw [List.mem_singleton] at hrow
      subst hrow
      rfl)
  rw [h]
  norm_num [npInterp_replicate_zero]

/-! ### Concrete evaluations of the euler and milstein branches -/

/-- C3 (divergence evaluation): with a flat-zero curve, `t = [1/4]` (one
fixing time) and two paths whose samples are `1` and `0`, the euler branch
returns `[[exp(3/8), exp(1/4)]]`: the entry for the second path is
`exp(Y_1 + Y_2)`, the cumulative sum running across the two paths, whereas
the claimed time-axis recurrence gives `exp((r - 0.5*sigma^2)*dt)` =
`exp(-1/8)` for that entry (its sample is 0), and `exp(1/4) ≠ exp(-1/8)`. -/
theorem MCStockPrices_euler_path_axis_eval :
    MCStockPrices 1 1 (some (List.replicate 12 0)) [1/4] [[1, 0]] "euler" =
      .ok (.mat [[Real.exp (3/8), Real.exp (1/4)]]) ∧
    Real.exp (1/4) ≠
      Real.exp ((0 - 0.5 * 1 ^ 2) * (1/4) + 1 * Real.sqrt (1/4) * 0) := by
  have hsq : Real.sqrt (1/4 : ℝ) = 1/2 := by
    rw [show (1/4 : ℝ) = (1/2)^2 by norm_num, Real.sqrt_sq (by norm_num : (0:ℝ) ≤ 1/2)]
  constructor
  · have hcv : InterpolateRateCurveVec (some (List.replicate 12 0)) [1/4] none =
        .ok (some [0]) := by
      simp only [InterpolateRateCurveVec, Option.getD]
      rw [if_neg (by simp [RATE_CURVE_TENORS])]
      simp only [List.map_cons, List.map_nil, npInterp_replicate_zero]
    have h1 : transposeM [[(1 : ℝ), 0]] = [[1], [0]] := by
      simp [transposeM, List.range_succ, List.getD]
    have h3 : ∀ a b : ℝ, transposeM [[a], [b]] = [[a, b]] := by
      intro a b
      simp [transposeM, List.range_succ, List.getD]
    simp only [MCStockPrices]
    rw [hcv]
    simp only [if_true]
    rw [h1]
    simp only [List.map_cons, List.map_nil, List.zipWith_cons_cons,
      List.zipWith_nil_right, cumsum0, cumsum0Go, h3]
    norm_num [hsq]
    exact fun hcontra => absurd hcontra (by decide)
  · rw [hsq]
    intro heq
    rw [Real.exp_eq_exp] at heq
    norm_num at heq

/-- C2 (divergence evaluation): with a flat-zero curve, two fixing times
`[1/4, 1/4]` and a single path with zero samples, the milstein branch
returns the 1-D array `[7/8, 7/8]` of per-time factors (`np.prod` reduces
over the path axis), not the 2-time-by-1-path matrix of cumulative products
`[[7/8], [49/64]]` the claim requires; in particular the result is not a
2-D matrix of any shape. -/
theorem MCStockPrices_milstein_collapse :
    MCStockPrices 1 1 (some (List.replicate 12 0)) [1/4, 1/4] [[0], [0]] "milstein" =
      .ok (.vec [7/8, 7/8]) ∧
    ∀ m : List (List ℝ),
      MCStockPrices 1 1 (some (List.replicate 12 0)) [1/4, 1/4] [[0], [0]] "milstein" ≠
        .ok (.mat m) := by
  have hsq : Real.sqrt (1/4 : ℝ) = 1/2 := by
    rw [show (1/4 : ℝ) = (1/2)^2 by norm_num, Real.sqrt_sq (by norm_num : (0:ℝ) ≤ 1/2)]
  have heval : MCStockPrices 1 1 (some (List.replicate 12 0)) [1/4, 1/4] [[0], [0]]
      "milstein" = .ok (.vec [7/8, 7/8]) := by
    have hcv : InterpolateRateCurveVec (some (List.replicate 12 0)) [1/4, 1/4] none =
        .ok (some [0, 0]) := by
      simp only [InterpolateRateCurveVec, Option.getD]
      rw [if_neg (by simp [RATE_CURVE_TENORS])]
      simp only [List.map_cons, List.map_nil, npInterp_replicate_zero]
    have h3 : ∀ a b : ℝ, transposeM [[a], [b]] = [[a, b]] := by
      intro a b
      simp [transposeM, List.range_succ, List.getD]
    simp only [MCStockPrices]
    rw [hcv]
    simp only [if_true]
    rw [h3 0 0]
    simp only [List.map_cons, List.map_nil, List.zipWith_cons_cons,
      List.zipWith_nil_right, prod0, List.foldl_nil]
    norm_num [hsq]
    rw [if_neg (by decide : ¬ ("milstein" = "standard")),
      if_neg (by decide : ¬ ("milstein" = "euler"))]
  refine ⟨heval, ?_⟩
  intro m hm
  rw [heval] at hm
  simp at hm

/-- C9 (counterexample): with a one-entry rate curve (length mismatch
against the 12 default tenors), the interpolation yields no rate and the
"standard" branch fails with a `TypeError` (arithmetic on `None`), not with
the `ValueError` that models `InvalidInput`. -/
theorem MCStockPrices_curve_mismatch_counterexample :
    MCStockPrices 1 1 (some [0]) [1] [[0]] "standard" = .error .typeError ∧
    ∀ msg, MCStockPrices 1 1 (some [0]) [1] [[0]] "standard" ≠
      .error (.valueError msg) := by
  have heval : MCStockPrices 1 1 (some [(0 : ℝ)]) [1] [[0]] "standard" =
      .error .typeError := by
    have hcv : InterpolateRateCurveVec (some [(0 : ℝ)]) [1] none = .ok none := by
      simp only [InterpolateRateCurveVec, Option.getD]
      rw [if_pos (by simp [RATE_CURVE_TENORS])]
    simp only [MCStockPrices]
    rw [hcv]
    simp only [if_true]
  refine ⟨heval, ?_⟩
  intro msg hmsg
  rw [heval] at hmsg
  simp at hmsg

/-- C9 (amended): for a non-null curve and a non-empty fixing-time vector,
`MCStockPrices` fails with the `Unknown integrator method` `ValueError`
(the `InvalidInput` kind) exactly for integrator strings outside
{"standard", "euler", "milstein"}; for a recognized integrator with a rate
curve whose length mismatches the default tenors the failure is instead a
`TypeError` from using the unavailable rate. -/
theorem MCStockPrices_error_kinds (S0 sig : ℝ) (curve : List ℝ) (t0 : ℝ)
    (trest : List ℝ) (samples : List (List ℝ)) (integrator : String) :
    (integrator ≠ "standard" → integrator ≠ "euler" → integrator ≠ "milstein" →
      MCStockPrices S0 sig (some curve) (t0 :: trest) samples integrator =
        .error (.valueError ("Unknown integrator method: " ++ integrator))) ∧
    (curve.length ≠ 12 →
      (integrator = "standard" ∨ integrator = "euler" ∨ integrator = "milstein") →
      MCStockPrices S0 sig (some curve) (t0 :: trest) samples integrator =
        .error .typeError) := by
  have hok : InterpolateRateCurveVec (some curve) (t0 :: trest) none =
      .ok (if RATE_CURVE_TENORS.length ≠ curve.length then none
        else some ((t0 :: trest).map fun T => npInterp T RATE_CURVE_TENORS curve)) := by
    simp only [InterpolateRateCurveVec, Option.getD]
    by_cases hc : RATE_CURVE_TENORS.length ≠ curve.length
    · rw [if_pos hc, if_pos hc]
    · rw [if_neg hc, if_neg hc]
  constructor
  · intro h1 h2 h3
    simp only [MCStockPrices]
    rw [hok]
    simp only [if_neg h1, if_neg h2, if_neg h3]
  · intro hlen hint
    have hcond : RATE_CURVE_TENORS.length ≠ curve.length := by
      rw [show RATE_CURVE_TENORS.length = 12 from rfl]
      omega
    simp only [MCStockPrices]
    rw [hok, if_pos hcond]
    simp only []
    rcases hint with rfl | rfl | rfl
    · rw [if_pos rfl]
    · rw [if_neg (by decide : ¬ ("euler" = "standard")), if_pos rfl]
    · rw [if_neg (by decide : ¬ ("milstein" = "standard")),
        if_neg (by decide : ¬ ("milstein" = "euler")), if_pos rfl]

/-- Witness for the amended C9: the unrecognized integrator "heun" fails
with the `Unknown integrator method` `ValueError`. -/
theorem MCStockPrices_error_kinds_witness :
    MCStockPrices 1 1 (some (List.replicate 12 0)) [1] [[0]] "heun" =
      .error (.valueError ("Unknown integrator method: " ++ "heun")) :=
  (MCStockPrices_error_kinds 1 1 (List.replicate 12 0) 1 [] [[0]] "heun").1
    (by decide) (by decide) (by decide)
